import Mathlib

/-!
Verification of the SPA (Semantic Pointer Architecture) action-selection
core exercised by `examples/spa/question_control.ipynb`, against its
specification.  The notebook wires pre-built modules; the engine itself
(vocabulary algebra, action evaluator, selector, router, configuration) is
modelled from the specification's words, as the spec directs.  Real-valued
vector quantities are embedded over `ℚ` (exact rationals) where the code is
executable, and over `ℝ` for the analytic vocabulary algebra (cosine
similarity, circular convolution).
-/

namespace Spa

/-- Expression grammar over symbols and channels, the fixed expression-tree
variant type of the spec (terms: SymbolRef, ChannelRef, Bind, Add, Sub, and
unary involution `~`, which produces unbind-like behavior when followed by
a bind, as in the notebook's effect `~vision*memory`). -/
inductive Expr where
  | sym (name : String)
  | chan (name : String)
  | add (a b : Expr)
  | sub (a b : Expr)
  | bind (a b : Expr)
  | inv (a : Expr)
  deriving DecidableEq, Repr

/-- A rule: condition terms `dot(channel, expr)` joined by `+`, and effect
assignments `channel = expr`.  Immutable, created at model-build time. -/
structure Rule where
  conditions : List (String × Expr)
  effects : List (String × Expr)
  deriving DecidableEq, Repr

/-- Destination channels of a rule: the left-hand sides of its effect
assignments. -/
def Rule.dests (r : Rule) : List String :=
  r.effects.map Prod.fst

/-- The two actions declared in the notebook:
`dot(vision, STATEMENT) --> memory = vision - STATEMENT` and
`dot(vision, QUESTION) --> motor = ~vision*memory`. -/
def questionControlActions : List Rule :=
  [ { conditions := [("vision", Expr.sym "STATEMENT")],
      effects := [("memory", Expr.sub (Expr.chan "vision") (Expr.sym "STATEMENT"))] },
    { conditions := [("vision", Expr.sym "QUESTION")],
      effects := [("motor", Expr.bind (Expr.inv (Expr.chan "vision")) (Expr.chan "memory"))] } ]

/-- The notebook's piecewise input function (cell "Provide the input"),
with Python's chained comparisons `0.1 < t < 0.3` rendered as
conjunctions; time is embedded as an exact rational. -/
def Input (t : ℚ) : String :=
  if 0.1 < t ∧ t < 0.3 then "STATEMENT+RED*CIRCLE"
  else if 0.35 < t ∧ t < 0.5 then "STATEMENT+BLUE*SQUARE"
  else if 0.55 < t ∧ t < 0.7 then "QUESTION+RED"
  else if 0.75 < t ∧ t < 0.9 then "QUESTION+BLUE"
  else "0"

end Spa

namespace Spa

/-! ### Selector (competitive dynamics)

Modelled from the spec: the Selector itself is not in the repository's
files (the notebook delegates it to `spa.BasalGanglia` / `spa.Thalamus`);
the per-tick update below follows spec §4.3 steps 1–4.  The inhibition,
time-constant and threshold constants are tunable configuration (spec §9);
the decisiveness and tie claims are settled at the concrete configuration
`gain = 1`, `dt = 1`, `tau = 2`, ramp deadzone `1/20`, ramp slope `2`. -/

/-- Clamp a scalar to the closed interval `[0,1]` (spec §4.3 step 3). -/
def clamp01 (x : ℚ) : ℚ := min 1 (max 0 x)

/-- Modelled from the spec: global inhibition seen by rule `i` — the max
utility among all OTHER rules, scaled by the inhibition gain (spec §4.3
step 1).  With no other rules the term is `0`. -/
def inhibition (gain : ℚ) (utils : Fin m → ℚ) (i : Fin m) : ℚ :=
  gain * ((Finset.univ.erase i).fold max 0 utils)

/-- Raw drive of rule `i`: its utility minus the global inhibition term. -/
def drive (gain : ℚ) (utils : Fin m → ℚ) (i : Fin m) : ℚ :=
  utils i - inhibition gain utils i

/-- One tick of the competitive-dynamics update (spec §4.3 steps 1–3):
integrate activity toward the drive with time constant `tau`
(`activity[i] += (drive[i] - activity[i]) * dt / tau`) and clamp to
`[0,1]`. -/
def stepActivity (gain dt tau : ℚ) (utils act : Fin m → ℚ) (i : Fin m) : ℚ :=
  clamp01 (act i + (drive gain utils i - act i) * dt / tau)

/-- Ramp soft threshold with a deadzone below `eps` (spec §4.3 step 4). -/
def ramp (eps slope x : ℚ) : ℚ := clamp01 ((x - eps) * slope)

/-- Emitted selection signal (spec §4.3 step 4): `max(0, activity[i])`
passed through the ramp soft threshold. -/
def selectionOf (eps slope : ℚ) (act : Fin m → ℚ) (i : Fin m) : ℚ :=
  ramp eps slope (max 0 (act i))

/-! ### Vocabulary algebra (bind / unbind / similarity)

Modelled from the spec: the vocabulary operators are not in the
repository's files (the notebook delegates them to `nengo.spa`); circular
convolution, the involution and cosine similarity below follow spec §4.1. -/

/-- Dot product of two `D`-dimensional real vectors. -/
def dotF {D : ℕ} (a b : Fin D → ℝ) : ℝ := ∑ i, a i * b i

/-- Cosine similarity (spec §4.1: normalized dot product). -/
noncomputable def cosSim {D : ℕ} (a b : Fin D → ℝ) : ℝ :=
  dotF a b / (Real.sqrt (dotF a a) * Real.sqrt (dotF b b))

/-- Circular convolution, the binding operator (spec §4.1, direct O(D²)
form): `(a ⊛ b) k = ∑ i, a i * b (k − i)` with indices mod `D`. -/
def bindF {D : ℕ} [NeZero D] (a b : Fin D → ℝ) : Fin D → ℝ :=
  fun k => ∑ i, a i * b (k - i)

/-- Involution: the reversed (index-negated) form of a vector. -/
def involF {D : ℕ} [NeZero D] (b : Fin D → ℝ) : Fin D → ℝ := fun i => b (-i)

/-- Unbinding: convolution with the involution of `b` (spec §4.1). -/
def unbindF {D : ℕ} [NeZero D] (a b : Fin D → ℝ) : Fin D → ℝ :=
  bindF a (involF b)

/-- Standard basis vector `e j`. -/
def deltaF {D : ℕ} (j : Fin D) : Fin D → ℝ := fun i => if i = j then 1 else 0

theorem sum_delta_mul {D : ℕ} (j : Fin D) (f : Fin D → ℝ) :
    (∑ i, deltaF j i * f i) = f j := by
  simp only [deltaF, ite_mul, one_mul, zero_mul]
  simp [Finset.sum_ite_eq']

theorem sum_mul_delta {D : ℕ} (j : Fin D) (f : Fin D → ℝ) :
    (∑ i, f i * deltaF j i) = f j := by
  simp only [deltaF, mul_ite, mul_one, mul_zero]
  simp [Finset.sum_ite_eq']

theorem dotF_delta_delta {D : ℕ} (i j : Fin D) :
    dotF (deltaF i) (deltaF j) = if i = j then 1 else 0 := by
  unfold dotF
  rw [sum_delta_mul i (deltaF j)]
  rfl

theorem ddelta_self {D : ℕ} (j : Fin D) : dotF (deltaF j) (deltaF j) = 1 := by
  rw [dotF_delta_delta, if_pos rfl]

theorem ddelta_ne {D : ℕ} {i j : Fin D} (h : i ≠ j) :
    dotF (deltaF i) (deltaF j) = 0 := by
  rw [dotF_delta_delta, if_neg h]

theorem dotF_add_left {D : ℕ} (a b c : Fin D → ℝ) :
    dotF (a + b) c = dotF a c + dotF b c := by
  simp [dotF, add_mul, Finset.sum_add_distrib]

theorem dotF_add_right {D : ℕ} (a b c : Fin D → ℝ) :
    dotF a (b + c) = dotF a b + dotF a c := by
  simp [dotF, mul_add, Finset.sum_add_distrib]

theorem dotF_smul_left {D : ℕ} (x : ℝ) (a c : Fin D → ℝ) :
    dotF (x • a) c = x * dotF a c := by
  simp [dotF, Finset.mul_sum, mul_assoc]

theorem dotF_smul_right {D : ℕ} (x : ℝ) (a c : Fin D → ℝ) :
    dotF a (x • c) = x * dotF a c := by
  simp [dotF, Finset.mul_sum]
  congr 1
  funext i
  ring

/-- Binding on the left by a basis vector is a cyclic shift. -/
theorem bindF_delta_left {D : ℕ} [NeZero D] (j : Fin D) (b : Fin D → ℝ) :
    bindF (deltaF j) b = fun k => b (k - j) := by
  funext k
  unfold bindF
  exact sum_delta_mul j (fun i => b (k - i))

/-- Binding on the right by a basis vector is a cyclic shift. -/
theorem bindF_delta_right {D : ℕ} [NeZero D] (a : Fin D → ℝ) (j : Fin D) :
    bindF a (deltaF j) = fun k => a (k - j) := by
  funext k
  unfold bindF
  have hiff : ∀ i : Fin D, (k - i = j) ↔ (i = k - j) := fun i =>
    ⟨fun h => by rw [← h, sub_sub_cancel], fun h => by rw [h, sub_sub_cancel]⟩
  have hrw : ∀ i : Fin D, deltaF j (k - i) = deltaF (k - j) i := by
    intro i
    simp only [deltaF, hiff i]
  simp only [hrw]
  exact sum_mul_delta (k - j) a

/-- The involution of a basis vector is the negated-index basis vector. -/
theorem involF_delta {D : ℕ} [NeZero D] (j : Fin D) :
    involF (deltaF j) = deltaF (-j) := by
  funext i
  simp only [involF, deltaF, neg_eq_iff_eq_neg]

/-- Unbinding a bound pair by a basis (cyclic-shift) vector recovers the
other factor exactly. -/
theorem unbind_bindF_delta {D : ℕ} [NeZero D] (a : Fin D → ℝ) (j : Fin D) :
    unbindF (bindF a (deltaF j)) (deltaF j) = a := by
  unfold unbindF
  rw [involF_delta, bindF_delta_right, bindF_delta_right]
  funext k
  simp only [sub_neg_eq_add, add_sub_cancel_right]

/-- Cosine similarity of a unit vector with itself is exactly `1`. -/
theorem cosSim_self_of_unit {D : ℕ} {a : Fin D → ℝ} (ha : dotF a a = 1) :
    cosSim a a = 1 := by
  unfold cosSim
  rw [ha, Real.sqrt_one]
  norm_num

/-- The concrete unit vector `e 0` at `D = 64`. -/
noncomputable def unitA : Fin 64 → ℝ := deltaF 0

/-- The concrete unit vector `(3/5, 4/5, 0, …, 0)` at `D = 64`: a unit
vector whose circular autocorrelation is not a delta, so unbinding by it
is not approximately exact. -/
noncomputable def unitB : Fin 64 → ℝ := (3/5 : ℝ) • deltaF 0 + (4/5 : ℝ) • deltaF 1

/-- Result of `unbind(bind(unitA, unitB), unitB)`:
`e 0 + (12/25) e 1 + (12/25) e 63`. -/
noncomputable def recov : Fin 64 → ℝ :=
  deltaF 0 + (12/25 : ℝ) • deltaF 1 + (12/25 : ℝ) • deltaF (-1)

theorem bindF_unitB_left (c : Fin 64 → ℝ) (k : Fin 64) :
    bindF unitB c k = 3/5 * c k + 4/5 * c (k - 1) := by
  unfold bindF unitB
  have hterm : ∀ i : Fin 64,
      ((3/5 : ℝ) • deltaF (0 : Fin 64) + (4/5 : ℝ) • deltaF (1 : Fin 64)) i * c (k - i)
        = 3/5 * (deltaF (0 : Fin 64) i * c (k - i))
          + 4/5 * (deltaF (1 : Fin 64) i * c (k - i)) := by
    intro i
    simp only [Pi.add_apply, Pi.smul_apply, smul_eq_mul]
    ring
  rw [Finset.sum_congr rfl (fun i _ => hterm i), Finset.sum_add_distrib,
    ← Finset.mul_sum, ← Finset.mul_sum, sum_delta_mul, sum_delta_mul, sub_zero]

theorem unbind_unitB_eq_recov : unbindF unitB unitB = recov := by
  funext k
  unfold unbindF
  rw [bindF_unitB_left (involF unitB) k]
  simp only [involF, neg_sub]
  rcases eq_or_ne k 0 with rfl | hk0
  · have h1 : ((1 : Fin 64)) ≠ 0 := by decide
    have h2 : ((0 : Fin 64)) ≠ 1 := by decide
    have h3 : ((0 : Fin 64)) ≠ -1 := by decide
    simp [unitB, recov, deltaF, h1, h2, h3]
    norm_num
  rcases eq_or_ne k 1 with rfl | hk1
  · have h1 : (-1 : Fin 64) ≠ 0 := by decide
    have h2 : (-1 : Fin 64) ≠ 1 := by decide
    have h3 : ((1 : Fin 64)) ≠ 0 := by decide
    have h4 : ((1 : Fin 64)) ≠ -1 := by decide
    have h5 : ((0 : Fin 64)) ≠ 1 := by decide
    simp [unitB, recov, deltaF, h1, h2, h3, h4, h5]
    norm_num
  rcases eq_or_ne k (-1) with rfl | hkm
  · have h1 : (-(-1) : Fin 64) = 1 := by decide
    have h2 : ((1 : Fin 64)) - (-1) = 2 := by decide
    have h3 : ((2 : Fin 64)) ≠ 0 := by decide
    have h4 : ((2 : Fin 64)) ≠ 1 := by decide
    have h5 : (-1 : Fin 64) ≠ 0 := by decide
    have h6 : (-1 : Fin 64) ≠ 1 := by decide
    have h7 : ((1 : Fin 64)) ≠ 0 := by decide
    simp [unitB, recov, deltaF, h1, h2, h3, h4, h5, h6, h7]
    norm_num
  · have e1 : -k ≠ 0 := fun h => hk0 (neg_eq_zero.mp h)
    have e2 : -k ≠ 1 := fun h => hkm (neg_eq_iff_eq_neg.mp h)
    have e3 : (1 : Fin 64) - k ≠ 0 := fun h => hk1 (sub_eq_zero.mp h).symm
    have e4 : (1 : Fin 64) - k ≠ 1 := fun h => hk0 (sub_eq_self.mp h)
    simp [unitB, recov, deltaF, e1, e2, e3, e4, hk0, hk1, hkm]

theorem dot_recov_unitA : dotF recov unitA = 1 := by
  unfold recov unitA
  rw [dotF_add_left, dotF_add_left, dotF_smul_left, dotF_smul_left,
    ddelta_self, ddelta_ne (by decide), ddelta_ne (by decide)]
  norm_num

theorem dot_unitB_unitB : dotF unitB unitB = 1 := by
  have h01 : ((0 : Fin 64)) ≠ 1 := by decide
  have h10 : ((1 : Fin 64)) ≠ 0 := by decide
  unfold unitB
  simp [dotF_add_left, dotF_add_right, dotF_smul_left, dotF_smul_right,
    dotF_delta_delta, h01, h10]
  norm_num

theorem dot_recov_recov : dotF recov recov = 913/625 := by
  have h01 : ((0 : Fin 64)) ≠ 1 := by decide
  have h10 : ((1 : Fin 64)) ≠ 0 := by decide
  have h0m : ((0 : Fin 64)) ≠ -1 := by decide
  have hm0 : (-1 : Fin 64) ≠ 0 := by decide
  have h1m : ((1 : Fin 64)) ≠ -1 := by decide
  have hm1 : (-1 : Fin 64) ≠ 1 := by decide
  unfold recov
  simp [dotF_add_left, dotF_add_right, dotF_smul_left, dotF_smul_right,
    dotF_delta_delta, h01, h10, h0m, hm0, h1m, hm1]
  norm_num

/-- C1 counterexample: at `D = 64` the vectors `unitA = e 0` and
`unitB = (3/5, 4/5, 0, …)` are both unit vectors, yet
`similarity(unbind(bind(a,b), b), a) = 25/√913 ≈ 0.827`, which is not
greater than `0.95`: the round-trip bound does not hold for every pair of
unit vectors. -/
theorem roundtrip_similarity_fails_at_unitB :
    dotF unitA unitA = 1 ∧ dotF unitB unitB = 1 ∧
    ¬((0.95 : ℝ) < cosSim (unbindF (bindF unitA unitB) unitB) unitA) := by
  refine ⟨ddelta_self 0, dot_unitB_unitB, ?_⟩
  have hbind : bindF unitA unitB = unitB := by
    unfold unitA
    rw [bindF_delta_left]
    funext k
    rw [sub_zero]
  rw [hbind, unbind_unitB_eq_recov]
  unfold cosSim
  rw [dot_recov_unitA, dot_recov_recov,
    show dotF unitA unitA = 1 from ddelta_self 0, Real.sqrt_one, mul_one]
  have h1 : (20/19 : ℝ) ≤ Real.sqrt (913/625) :=
    (Real.le_sqrt' (by norm_num)).mpr (by norm_num)
  have h3 : (1 : ℝ) / Real.sqrt (913/625) ≤ 1 / (20/19) :=
    one_div_le_one_div_of_le (by norm_num) h1
  rw [not_lt]
  calc (1 : ℝ) / Real.sqrt (913/625) ≤ 1 / (20/19) := h3
  _ ≤ 0.95 := by norm_num

/-- C1 amended: the bound-then-unbound round trip recovers `a` exactly
(similarity `1 > 0.95`) for every dimension `D ≥ 64` and every unit vector
`a` when the binding vector `b` is a standard-basis (cyclic-shift) unit
vector; the bound fails for general unit vectors (see the
counterexample). -/
theorem unbind_bind_exact_for_basis (D : ℕ) [NeZero D] (_hD : 64 ≤ D)
    (j : Fin D) (a : Fin D → ℝ) (ha : dotF a a = 1) :
    cosSim (unbindF (bindF a (deltaF j)) (deltaF j)) a = 1 ∧
    (0.95 : ℝ) < cosSim (unbindF (bindF a (deltaF j)) (deltaF j)) a := by
  rw [unbind_bindF_delta a j]
  refine ⟨cosSim_self_of_unit ha, ?_⟩
  rw [cosSim_self_of_unit ha]
  norm_num

/-- Witness for the amended C1 at `D = 64`, `a = e 0`, `b = e 3`. -/
theorem unbind_bind_exact_for_basis_witness :
    cosSim (unbindF (bindF (deltaF (0 : Fin 64)) (deltaF 3)) (deltaF 3)) (deltaF 0) = 1 ∧
    (0.95 : ℝ) < cosSim (unbindF (bindF (deltaF (0 : Fin 64)) (deltaF 3)) (deltaF 3)) (deltaF 0) :=
  unbind_bind_exact_for_basis 64 (by norm_num) 3 (deltaF 0) (ddelta_self 0)

/-- Length-mismatch error of `similarity` (spec §4.1), carrying the two
offending lengths. -/
structure DimensionMismatchError where
  la : ℕ
  lb : ℕ
  deriving DecidableEq, Repr

/-- Dot product of two real vectors given as lists. -/
def dotL (a b : List ℝ) : ℝ := (List.zipWith (· * ·) a b).sum

/-- Modelled from the spec: `similarity(a, b)` is cosine similarity, and
fails with `DimensionMismatchError` if the lengths differ (spec §4.1). -/
noncomputable def similarity (a b : List ℝ) : Except DimensionMismatchError ℝ :=
  if a.length = b.length then
    Except.ok (dotL a b / (Real.sqrt (dotL a a) * Real.sqrt (dotL b b)))
  else
    Except.error ⟨a.length, b.length⟩

theorem list_sum_eq_range_sum (l : List ℝ) :
    l.sum = ∑ i ∈ Finset.range l.length, l.getD i 0 := by
  induction l with
  | nil => simp
  | cons x xs ih =>
    rw [List.length_cons, Finset.sum_range_succ']
    simp [ih]
    ring

theorem dotL_eq_range_sum (a b : List ℝ) :
    dotL a b = ∑ i ∈ Finset.range (min a.length b.length), a.getD i 0 * b.getD i 0 := by
  unfold dotL
  rw [list_sum_eq_range_sum, List.length_zipWith]
  refine Finset.sum_congr rfl ?_
  intro i hi
  rw [Finset.mem_range] at hi
  have hz : i < (List.zipWith (· * ·) a b).length := by
    rw [List.length_zipWith]; exact hi
  rw [List.getD_eq_getElem _ _ hz, List.getElem_zipWith,
    List.getD_eq_getElem _ _ (lt_of_lt_of_le hi (min_le_left _ _)),
    List.getD_eq_getElem _ _ (lt_of_lt_of_le hi (min_le_right _ _))]

theorem dotL_self_nonneg (a : List ℝ) : 0 ≤ dotL a a := by
  rw [dotL_eq_range_sum]
  exact Finset.sum_nonneg (fun i _ => mul_self_nonneg _)

theorem sq_range_sum_le_dotL_self (a : List ℝ) (n : ℕ) (h : n ≤ a.length) :
    (∑ i ∈ Finset.range n, a.getD i 0 ^ 2) ≤ dotL a a := by
  rw [dotL_eq_range_sum, min_self]
  calc (∑ i ∈ Finset.range n, a.getD i 0 ^ 2)
      ≤ ∑ i ∈ Finset.range a.length, a.getD i 0 ^ 2 :=
        Finset.sum_le_sum_of_subset_of_nonneg (Finset.range_subset.mpr h)
          (fun i _ _ => sq_nonneg _)
    _ = ∑ i ∈ Finset.range a.length, a.getD i 0 * a.getD i 0 :=
        Finset.sum_congr rfl (fun i _ => pow_two (a.getD i 0))

/-- Cauchy–Schwarz for list dot products. -/
theorem abs_dotL_le (a b : List ℝ) :
    |dotL a b| ≤ Real.sqrt (dotL a a) * Real.sqrt (dotL b b) := by
  have hA : (∑ i ∈ Finset.range (min a.length b.length), a.getD i 0 ^ 2) ≤ dotL a a :=
    sq_range_sum_le_dotL_self a _ (min_le_left _ _)
  have hB : (∑ i ∈ Finset.range (min a.length b.length), b.getD i 0 ^ 2) ≤ dotL b b :=
    sq_range_sum_le_dotL_self b _ (min_le_right _ _)
  have hCS : |∑ i ∈ Finset.range (min a.length b.length), a.getD i 0 * b.getD i 0| ≤
      Real.sqrt (∑ i ∈ Finset.range (min a.length b.length), a.getD i 0 ^ 2) *
        Real.sqrt (∑ i ∈ Finset.range (min a.length b.length), b.getD i 0 ^ 2) := by
    rw [abs_le]
    constructor
    · have h := Real.sum_mul_le_sqrt_mul_sqrt (Finset.range (min a.length b.length))
        (fun i => a.getD i 0) (fun i => -(b.getD i 0))
      simp only [mul_neg, Finset.sum_neg_distrib, neg_sq] at h
      linarith
    · exact Real.sum_mul_le_sqrt_mul_sqrt _ _ _
  rw [dotL_eq_range_sum]
  refine le_trans hCS ?_
  exact mul_le_mul (Real.sqrt_le_sqrt hA) (Real.sqrt_le_sqrt hB)
    (Real.sqrt_nonneg _) (Real.sqrt_nonneg _)

/-- C8: for equal-length real vectors `similarity` returns the cosine
similarity, a scalar in `[-1, 1]`; for differing lengths it fails with a
`DimensionMismatchError`. -/
theorem similarity_range_and_mismatch (a b : List ℝ) :
    (a.length = b.length →
      ∃ s, similarity a b = Except.ok s ∧ -1 ≤ s ∧ s ≤ 1) ∧
    (a.length ≠ b.length → ∃ e, similarity a b = Except.error e) := by
  constructor
  · intro h
    unfold similarity
    rw [if_pos h]
    refine ⟨_, rfl, ?_⟩
    have habs := abs_dotL_le a b
    have hden : 0 ≤ Real.sqrt (dotL a a) * Real.sqrt (dotL b b) :=
      mul_nonneg (Real.sqrt_nonneg _) (Real.sqrt_nonneg _)
    rcases eq_or_lt_of_le hden with hz | hpos
    · have hd0 : dotL a b = 0 := by
        have h0 : |dotL a b| ≤ 0 := by rw [hz]; exact habs
        exact abs_eq_zero.mp (le_antisymm h0 (abs_nonneg _))
      rw [hd0, zero_div]
      norm_num
    · rw [abs_le] at habs
      constructor
      · rw [le_div_iff₀ hpos]
        linarith [habs.1]
      · rw [div_le_one hpos]
        exact habs.2
  · intro h
    unfold similarity
    rw [if_neg h]
    exact ⟨_, rfl⟩

/-- Ramp deadzone chosen for the configured selector. -/
def selEps : ℚ := 1/20

/-- Ramp slope chosen for the configured selector. -/
def selSlope : ℚ := 2

/-- Activity trajectory of the Selector from the all-zero initial state
under a constant utility vector. -/
def activityTraj (gain dt tau : ℚ) (utils : Fin m → ℚ) : ℕ → Fin m → ℚ
  | 0 => fun _ => 0
  | k + 1 => stepActivity gain dt tau utils (activityTraj gain dt tau utils k)

/-- The constant decisive utility vector `[0.9, 0.1]` of the spec's
decisiveness property. -/
def decisiveUtils : Fin 2 → ℚ := fun i => if i = 0 then 9/10 else 1/10

/-- The constant tied utility vector `[0.5, 0.5]` of the spec's ambiguity
property. -/
def tieUtils : Fin 2 → ℚ := fun _ => 1/2

/-- Selection trajectory under the decisive utilities at the configured
constants (`gain = 1`, `dt = 1`, `tau = 2`). -/
def selDecisive (n : ℕ) (i : Fin 2) : ℚ :=
  selectionOf selEps selSlope (activityTraj 1 1 2 decisiveUtils n) i

/-- Selection trajectory under the tied utilities at the configured
constants. -/
def selTie (n : ℕ) (i : Fin 2) : ℚ :=
  selectionOf selEps selSlope (activityTraj 1 1 2 tieUtils n) i

theorem clamp01_nonneg (x : ℚ) : 0 ≤ clamp01 x :=
  le_min (by norm_num) (le_max_left 0 x)

theorem clamp01_le_one (x : ℚ) : clamp01 x ≤ 1 :=
  min_le_left 1 _

theorem clamp01_of_mem {x : ℚ} (h0 : 0 ≤ x) (h1 : x ≤ 1) : clamp01 x = x := by
  unfold clamp01
  rw [max_eq_right h0, min_eq_right h1]

theorem clamp01_of_nonpos {x : ℚ} (h : x ≤ 0) : clamp01 x = 0 := by
  unfold clamp01
  rw [max_eq_left h, min_eq_right (by norm_num)]

theorem clamp01_of_one_le {x : ℚ} (h : 1 ≤ x) : clamp01 x = 1 := by
  unfold clamp01
  rw [max_eq_right (le_trans (by norm_num) h), min_eq_left h]

theorem erase_univ_fin2_zero : (Finset.univ.erase (0 : Fin 2)) = {1} := by decide

theorem erase_univ_fin2_one : (Finset.univ.erase (1 : Fin 2)) = {0} := by decide

theorem drive_fin2_zero (gain : ℚ) (u : Fin 2 → ℚ) :
    drive gain u 0 = u 0 - gain * max (u 1) 0 := by
  unfold drive inhibition
  rw [erase_univ_fin2_zero, Finset.fold_singleton]

theorem drive_fin2_one (gain : ℚ) (u : Fin 2 → ℚ) :
    drive gain u 1 = u 1 - gain * max (u 0) 0 := by
  unfold drive inhibition
  rw [erase_univ_fin2_one, Finset.fold_singleton]

/-- Closed form of the decisive trajectory: the winner's activity is
`4/5 · (1 − (1/2)ⁿ)` and the loser's activity stays at `0`. -/
theorem decisive_traj_closed_form (n : ℕ) :
    activityTraj 1 1 2 decisiveUtils n 0 = 4/5 - (4/5) * (1/2 : ℚ) ^ n ∧
    activityTraj 1 1 2 decisiveUtils n 1 = 0 := by
  induction n with
  | zero => norm_num [activityTraj]
  | succ k ih =>
    obtain ⟨ih0, ih1⟩ := ih
    have hqpos : (0 : ℚ) < (1/2 : ℚ) ^ k := by positivity
    have hqle : ((1/2 : ℚ)) ^ k ≤ 1 := pow_le_one₀ (by norm_num) (by norm_num)
    constructor
    · show stepActivity 1 1 2 decisiveUtils (activityTraj 1 1 2 decisiveUtils k) 0 = _
      unfold stepActivity
      rw [drive_fin2_zero, ih0]
      have hval : decisiveUtils 0 = 9/10 := by norm_num [decisiveUtils]
      have hval1 : decisiveUtils 1 = 1/10 := by norm_num [decisiveUtils]
      rw [hval, hval1, max_eq_left (by norm_num)]
      rw [clamp01_of_mem (by nlinarith) (by nlinarith)]
      ring
    · show stepActivity 1 1 2 decisiveUtils (activityTraj 1 1 2 decisiveUtils k) 1 = 0
      unfold stepActivity
      rw [drive_fin2_one, ih1]
      have hval : decisiveUtils 0 = 9/10 := by norm_num [decisiveUtils]
      have hval1 : decisiveUtils 1 = 1/10 := by norm_num [decisiveUtils]
      rw [hval, hval1, max_eq_left (by norm_num)]
      exact clamp01_of_nonpos (by norm_num)

/-- Under the tied utilities every rule's net drive is exactly zero. -/
theorem fin_two_cases (j : Fin 2) : j = 0 ∨ j = 1 := by
  revert j
  decide

theorem drive_tie_eq_zero (i : Fin 2) : drive 1 tieUtils i = 0 := by
  rcases fin_two_cases i with rfl | rfl
  · rw [drive_fin2_zero]; norm_num [tieUtils]
  · rw [drive_fin2_one]; norm_num [tieUtils]

/-- The tied trajectory stays at the all-zero activity state. -/
theorem tie_traj_zero (n : ℕ) (i : Fin 2) : activityTraj 1 1 2 tieUtils n i = 0 := by
  induction n with
  | zero => rfl
  | succ k ih =>
    show stepActivity 1 1 2 tieUtils (activityTraj 1 1 2 tieUtils k) i = 0
    unfold stepActivity
    rw [drive_tie_eq_zero, ih]
    exact clamp01_of_nonpos (by norm_num)

/-- C2: with two rules of constant utilities `[0.9, 0.1]` at the configured
selector constants (`tau = 2`, `dt = 1`, so `5·tau` is 10 ticks), from
tick 10 on the selection signal is within `0.05` of `[1, 0]` at every tick
— it converges and stays in the band with no oscillation, in particular for
the 100 ticks following tick 10. -/
theorem decisive_selection_converges (n : ℕ) (h : 10 ≤ n) :
    |selDecisive n 0 - 1| ≤ 1/20 ∧ |selDecisive n 1| ≤ 1/20 := by
  obtain ⟨h0, h1⟩ := decisive_traj_closed_form n
  have hq : ((1/2 : ℚ)) ^ n ≤ (1/2 : ℚ) ^ 10 :=
    pow_le_pow_of_le_one (by norm_num) (by norm_num) h
  have hq10 : ((1/2 : ℚ)) ^ 10 = 1/1024 := by norm_num
  have hqpos : (0 : ℚ) < (1/2 : ℚ) ^ n := by positivity
  constructor
  · unfold selDecisive selectionOf ramp selEps selSlope
    rw [h0, max_eq_right (by nlinarith)]
    rw [clamp01_of_one_le (by nlinarith)]
    norm_num
  · unfold selDecisive selectionOf ramp selEps selSlope
    rw [h1]
    rw [max_eq_left (by norm_num)]
    rw [clamp01_of_nonpos (by norm_num)]
    norm_num

/-- Witness for C2 at the concrete tick 60. -/
theorem decisive_selection_converges_witness :
    |selDecisive 60 0 - 1| ≤ 1/20 ∧ |selDecisive 60 1| ≤ 1/20 :=
  decisive_selection_converges 60 (by norm_num)

/-- C3: with two rules tied at constant utility `0.5` at the configured
selector constants, both selection values stay at most `0.5` at every tick
and are exactly equal (so neither exceeds the other at all): the Selector
resolves ties to low confidence rather than an arbitrary pick. -/
theorem tie_selection_low_confidence (n : ℕ) :
    selTie n 0 ≤ 1/2 ∧ selTie n 1 ≤ 1/2 ∧ selTie n 0 = selTie n 1 := by
  have h0 := tie_traj_zero n 0
  have h1 := tie_traj_zero n 1
  have hsel : ∀ i : Fin 2, activityTraj 1 1 2 tieUtils n i = 0 → selTie n i = 0 := by
    intro i hi
    unfold selTie selectionOf ramp
    rw [hi, max_eq_left (by norm_num)]
    exact clamp01_of_nonpos (by norm_num [selEps, selSlope])
  rw [hsel 0 h0, hsel 1 h1]
  norm_num

/-- C4: after every tick update, for every rule, every utility input,
every gain, `dt` and `tau`, the activity lies in `[0,1]` and the emitted
selection signal is non-negative. -/
theorem activity_invariant (m : ℕ) (gain dt tau eps slope : ℚ)
    (utils act : Fin m → ℚ) (i : Fin m) :
    0 ≤ stepActivity gain dt tau utils act i ∧
    stepActivity gain dt tau utils act i ≤ 1 ∧
    0 ≤ selectionOf eps slope (stepActivity gain dt tau utils act) i :=
  ⟨clamp01_nonneg _, clamp01_le_one _, clamp01_nonneg _⟩

/-! ### Channel Store, expression evaluation and Router

Modelled from the spec: the engine's executable layer is not in the
repository's files; vectors are association-list registers of exact
rationals, and the Router follows spec §4.4. -/

/-- A channel/vocabulary vector register, over exact rationals. -/
abbrev Vec := List ℚ

/-- The Channel Store (and the Vocabulary's storage): an ordered mapping
from name to current vector value. -/
abbrev Store := List (String × Vec)

/-- Declared names of a store. -/
def keysOf (s : Store) : List String := s.map Prod.fst

/-- First-occurrence lookup in a store. -/
def lookupCh : Store → String → Option Vec
  | [], _ => none
  | (k, v) :: rest, n => if k = n then some v else lookupCh rest n

/-- Elementwise sum (superposition). -/
def vadd (a b : Vec) : Vec := List.zipWith (· + ·) a b

/-- Elementwise difference. -/
def vsub (a b : Vec) : Vec := List.zipWith (· - ·) a b

/-- Scalar multiple. -/
def vsmul (c : ℚ) (a : Vec) : Vec := a.map (fun x => c * x)

/-- Dot product. -/
def vdot (a b : Vec) : ℚ := (List.zipWith (· * ·) a b).sum

/-- Involution for circular convolution: index 0 fixed, remaining indices
reversed (index negation mod the dimension). -/
def involQ (v : Vec) : Vec :=
  match v with
  | [] => []
  | x :: rest => x :: rest.reverse

/-- Circular convolution over rational list vectors (direct O(D²) form,
indices mod the dimension of the first argument). -/
def cconvQ (a b : Vec) : Vec :=
  (List.range a.length).map (fun k =>
    ((List.range a.length).map
      (fun i => a.getD i 0 * b.getD ((k + a.length - i) % a.length) 0)).sum)

/-- Add `w` into the register of `n` (first occurrence); `none` when `n`
is not declared. -/
def addAt : Store → String → Vec → Option Store
  | [], _, _ => none
  | (k, v) :: rest, n, w =>
      if k = n then some ((k, vadd v w) :: rest)
      else (addAt rest n w).map (fun s => (k, v) :: s)

/-- Runtime errors of evaluation and routing (spec §7). -/
inductive RouteError where
  | unknownChannel (name : String)
  | unknownSymbol (name : String)
  deriving DecidableEq, Repr

/-- Tree-walk evaluation of an expression against the Vocabulary and the
current channel values (spec §9: no runtime `eval`); fails on an
undeclared channel or symbol. -/
def evalE (vocab chans : Store) : Expr → Except RouteError Vec
  | Expr.sym n =>
      match lookupCh vocab n with
      | some v => Except.ok v
      | none => Except.error (RouteError.unknownSymbol n)
  | Expr.chan n =>
      match lookupCh chans n with
      | some v => Except.ok v
      | none => Except.error (RouteError.unknownChannel n)
  | Expr.add a b => do pure (vadd (← evalE vocab chans a) (← evalE vocab chans b))
  | Expr.sub a b => do pure (vsub (← evalE vocab chans a) (← evalE vocab chans b))
  | Expr.bind a b => do pure (cconvQ (← evalE vocab chans a) (← evalE vocab chans b))
  | Expr.inv a => do pure (involQ (← evalE vocab chans a))

/-- Channel names referenced by an expression. -/
def exprChans : Expr → List String
  | Expr.sym _ => []
  | Expr.chan n => [n]
  | Expr.add a b => exprChans a ++ exprChans b
  | Expr.sub a b => exprChans a ++ exprChans b
  | Expr.bind a b => exprChans a ++ exprChans b
  | Expr.inv a => exprChans a

/-- Symbol names referenced by an expression. -/
def exprSyms : Expr → List String
  | Expr.sym n => [n]
  | Expr.chan _ => []
  | Expr.add a b => exprSyms a ++ exprSyms b
  | Expr.sub a b => exprSyms a ++ exprSyms b
  | Expr.bind a b => exprSyms a ++ exprSyms b
  | Expr.inv a => exprSyms a

/-- Channel names referenced by a rule's effect assignments (destinations
and right-hand-side expressions). -/
def Rule.effectChanRefs (r : Rule) : List String :=
  r.effects.map Prod.fst ++ r.effects.flatMap (fun e => exprChans e.2)

/-- Symbol names referenced by a rule's effect assignments. -/
def Rule.effectSymRefs (r : Rule) : List String :=
  r.effects.flatMap (fun e => exprSyms e.2)

/-- Apply one effect assignment: evaluate its expression against the
snapshot of current channel values and add the selection-weighted result
into the destination register (`channel[dest] += w * parse(expr)`,
spec §4.4). -/
def applyEffect (vocab snap : Store) (w : ℚ) (store : Store)
    (eff : String × Expr) : Except RouteError Store :=
  match evalE vocab snap eff.2 with
  | Except.error e => Except.error e
  | Except.ok v =>
      match addAt store eff.1 (vsmul w v) with
      | some s => Except.ok s
      | none => Except.error (RouteError.unknownChannel eff.1)

/-- Apply a rule's effect assignments when its selection weight is
positive; rules with non-positive selection weight are skipped
(spec §4.4: "for each rule with selection weight > 0"). -/
def applyRule (vocab snap : Store) (store : Store) (w : ℚ) (r : Rule) :
    Except RouteError Store :=
  if 0 < w then r.effects.foldlM (applyEffect vocab snap w) store
  else Except.ok store

/-- The Router (spec §4.4): fold the weighted rules over the store, every
effect expression evaluated against the snapshot of channel values taken
at the start of routing; no renormalization. -/
def route (vocab store : Store) (ws : List (ℚ × Rule)) :
    Except RouteError Store :=
  ws.foldlM (fun s p => applyRule vocab store s p.1 p.2) store

/-- The weighted contributions routed into channel `n`, in application
order: for each rule with positive weight, each of its effects with
destination `n` contributes `w * parse(expr)` evaluated against the
snapshot. -/
def contribsAt (vocab snap : Store) (ws : List (ℚ × Rule)) (n : String) :
    List Vec :=
  (ws.filter (fun p => 0 < p.1)).flatMap (fun p =>
    p.2.effects.filterMap (fun eff =>
      if eff.1 = n then
        some (vsmul p.1 ((evalE vocab snap eff.2).toOption.getD []))
      else none))

theorem lookupCh_cons_pos {k n : String} (v : Vec) (rest : Store) (h : k = n) :
    lookupCh ((k, v) :: rest) n = some v := by
  simp [lookupCh, h]

theorem lookupCh_cons_neg {k n : String} (v : Vec) (rest : Store) (h : k ≠ n) :
    lookupCh ((k, v) :: rest) n = lookupCh rest n := by
  simp [lookupCh, h]

theorem addAt_cons_pos {k n : String} (v w : Vec) (rest : Store) (h : k = n) :
    addAt ((k, v) :: rest) n w = some ((k, vadd v w) :: rest) := by
  simp [addAt, h]

theorem addAt_cons_neg {k n : String} (v w : Vec) (rest : Store) (h : k ≠ n) :
    addAt ((k, v) :: rest) n w = (addAt rest n w).map (fun s2 => (k, v) :: s2) := by
  simp [addAt, h]

theorem lookupCh_isSome_iff (s : Store) (n : String) :
    (lookupCh s n).isSome ↔ n ∈ keysOf s := by
  induction s with
  | nil => simp [lookupCh, keysOf]
  | cons kv rest ih =>
    obtain ⟨k, v⟩ := kv
    by_cases hk : k = n
    · subst hk
      rw [lookupCh_cons_pos v rest rfl]
      simp [keysOf]
    · rw [lookupCh_cons_neg v rest hk]
      simp only [keysOf, List.map_cons, List.mem_cons]
      rw [ih]
      constructor
      · intro h; exact Or.inr h
      · rintro (h | h)
        · exact absurd h.symm hk
        · exact h

theorem addAt_isSome_iff (s : Store) (n : String) (w : Vec) :
    (addAt s n w).isSome ↔ n ∈ keysOf s := by
  induction s with
  | nil => simp [addAt, keysOf]
  | cons kv rest ih =>
    obtain ⟨k, v⟩ := kv
    by_cases hk : k = n
    · subst hk
      rw [addAt_cons_pos v w rest rfl]
      simp [keysOf]
    · rw [addAt_cons_neg v w rest hk]
      simp only [keysOf, List.map_cons, List.mem_cons, Option.isSome_map']
      rw [ih]
      constructor
      · intro h; exact Or.inr h
      · rintro (h | h)
        · exact absurd h.symm hk
        · exact h

theorem addAt_keys {s s2 : Store} {n : String} {w : Vec}
    (h : addAt s n w = some s2) : keysOf s2 = keysOf s := by
  induction s generalizing s2 with
  | nil => simp [addAt] at h
  | cons kv rest ih =>
    obtain ⟨k, v⟩ := kv
    by_cases hk : k = n
    · subst hk
      rw [addAt_cons_pos v w rest rfl] at h
      cases h
      rfl
    · rw [addAt_cons_neg v w rest hk] at h
      cases hrec : addAt rest n w with
      | none => rw [hrec] at h; simp at h
      | some s3 =>
          rw [hrec] at h
          rw [Option.map_some'] at h
          rw [Option.some.injEq] at h
          subst h
          simp only [keysOf, List.map_cons, List.cons.injEq]
          exact ⟨trivial, ih hrec⟩

theorem addAt_lookup_self {s s2 : Store} {n : String} {w : Vec}
    (h : addAt s n w = some s2) :
    lookupCh s2 n = (lookupCh s n).map (fun v => vadd v w) := by
  induction s generalizing s2 with
  | nil => simp [addAt] at h
  | cons kv rest ih =>
    obtain ⟨k, v⟩ := kv
    by_cases hk : k = n
    · subst hk
      rw [addAt_cons_pos v w rest rfl] at h
      cases h
      rw [lookupCh_cons_pos _ _ rfl, lookupCh_cons_pos _ _ rfl]
      rfl
    · rw [addAt_cons_neg v w rest hk] at h
      cases hrec : addAt rest n w with
      | none => rw [hrec] at h; simp at h
      | some s3 =>
          rw [hrec] at h
          rw [Option.map_some'] at h
          rw [Option.some.injEq] at h
          subst h
          rw [lookupCh_cons_neg _ _ hk, lookupCh_cons_neg _ _ hk]
          exact ih hrec

theorem addAt_lookup_other {s s2 : Store} {n m : String} {w : Vec}
    (h : addAt s n w = some s2) (hmn : m ≠ n) :
    lookupCh s2 m = lookupCh s m := by
  induction s generalizing s2 with
  | nil => simp [addAt] at h
  | cons kv rest ih =>
    obtain ⟨k, v⟩ := kv
    by_cases hk : k = n
    · subst hk
      rw [addAt_cons_pos v w rest rfl] at h
      cases h
      have hkm : k ≠ m := fun he => hmn he.symm
      rw [lookupCh_cons_neg _ _ hkm, lookupCh_cons_neg _ _ hkm]
    · rw [addAt_cons_neg v w rest hk] at h
      cases hrec : addAt rest n w with
      | none => rw [hrec] at h; simp at h
      | some s3 =>
          rw [hrec] at h
          rw [Option.map_some'] at h
          rw [Option.some.injEq] at h
          subst h
          by_cases hkm : k = m
          · subst hkm
            rw [lookupCh_cons_pos _ _ rfl, lookupCh_cons_pos _ _ rfl]
          · rw [lookupCh_cons_neg _ _ hkm, lookupCh_cons_neg _ _ hkm]
            exact ih hrec

theorem evalE_ok_of_refs (vocab chans : Store) (ex : Expr)
    (hc : ∀ c ∈ exprChans ex, c ∈ keysOf chans)
    (hs : ∀ s ∈ exprSyms ex, s ∈ keysOf vocab) :
    ∃ v, evalE vocab chans ex = Except.ok v := by
  induction ex with
  | sym n =>
      have hmem : n ∈ keysOf vocab := hs n (by simp [exprSyms])
      rw [← lookupCh_isSome_iff] at hmem
      obtain ⟨v, hv⟩ := Option.isSome_iff_exists.mp hmem
      exact ⟨v, by simp [evalE, hv]⟩
  | chan n =>
      have hmem : n ∈ keysOf chans := hc n (by simp [exprChans])
      rw [← lookupCh_isSome_iff] at hmem
      obtain ⟨v, hv⟩ := Option.isSome_iff_exists.mp hmem
      exact ⟨v, by simp [evalE, hv]⟩
  | add a b iha ihb =>
      obtain ⟨va, hva⟩ := iha (fun c hm => hc c (by simp [exprChans, hm]))
        (fun s hm => hs s (by simp [exprSyms, hm]))
      obtain ⟨vb, hvb⟩ := ihb (fun c hm => hc c (by simp [exprChans, hm]))
        (fun s hm => hs s (by simp [exprSyms, hm]))
      exact ⟨vadd va vb, by simp only [evalE, hva, hvb]; rfl⟩
  | sub a b iha ihb =>
      obtain ⟨va, hva⟩ := iha (fun c hm => hc c (by simp [exprChans, hm]))
        (fun s hm => hs s (by simp [exprSyms, hm]))
      obtain ⟨vb, hvb⟩ := ihb (fun c hm => hc c (by simp [exprChans, hm]))
        (fun s hm => hs s (by simp [exprSyms, hm]))
      exact ⟨vsub va vb, by simp only [evalE, hva, hvb]; rfl⟩
  | bind a b iha ihb =>
      obtain ⟨va, hva⟩ := iha (fun c hm => hc c (by simp [exprChans, hm]))
        (fun s hm => hs s (by simp [exprSyms, hm]))
      obtain ⟨vb, hvb⟩ := ihb (fun c hm => hc c (by simp [exprChans, hm]))
        (fun s hm => hs s (by simp [exprSyms, hm]))
      exact ⟨cconvQ va vb, by simp only [evalE, hva, hvb]; rfl⟩
  | inv a iha =>
      obtain ⟨va, hva⟩ := iha (fun c hm => hc c (by simp [exprChans, hm]))
        (fun s hm => hs s (by simp [exprSyms, hm]))
      exact ⟨involQ va, by simp only [evalE, hva]; rfl⟩

theorem evalE_chanRefs_of_ok {vocab chans : Store} {ex : Expr} {v : Vec}
    (h : evalE vocab chans ex = Except.ok v) :
    ∀ c ∈ exprChans ex, c ∈ keysOf chans := by
  induction ex generalizing v with
  | sym n => simp [exprChans]
  | chan n =>
      intro c hmem
      simp only [exprChans, List.mem_singleton] at hmem
      subst hmem
      rw [← lookupCh_isSome_iff]
      cases hl : lookupCh chans c with
      | none => rw [evalE, hl] at h; cases h
      | some w => simp
  | add a b iha ihb =>
      intro c hmem
      cases ha : evalE vocab chans a with
      | error e => rw [evalE, ha] at h; cases h
      | ok va =>
          cases hb : evalE vocab chans b with
          | error e => rw [evalE, ha, hb] at h; cases h
          | ok vb =>
              simp only [exprChans, List.mem_append] at hmem
              rcases hmem with hm | hm
              · exact iha ha c hm
              · exact ihb hb c hm
  | sub a b iha ihb =>
      intro c hmem
      cases ha : evalE vocab chans a with
      | error e => rw [evalE, ha] at h; cases h
      | ok va =>
          cases hb : evalE vocab chans b with
          | error e => rw [evalE, ha, hb] at h; cases h
          | ok vb =>
              simp only [exprChans, List.mem_append] at hmem
              rcases hmem with hm | hm
              · exact iha ha c hm
              · exact ihb hb c hm
  | bind a b iha ihb =>
      intro c hmem
      cases ha : evalE vocab chans a with
      | error e => rw [evalE, ha] at h; cases h
      | ok va =>
          cases hb : evalE vocab chans b with
          | error e => rw [evalE, ha, hb] at h; cases h
          | ok vb =>
              simp only [exprChans, List.mem_append] at hmem
              rcases hmem with hm | hm
              · exact iha ha c hm
              · exact ihb hb c hm
  | inv a iha =>
      intro c hmem
      cases ha : evalE vocab chans a with
      | error e => rw [evalE, ha] at h; cases h
      | ok va =>
          simp only [exprChans] at hmem
          exact iha ha c hmem

theorem evalE_error_unknownChannel {vocab chans : Store} {ex : Expr}
    {e : RouteError}
    (hs : ∀ s ∈ exprSyms ex, s ∈ keysOf vocab)
    (h : evalE vocab chans ex = Except.error e) :
    ∃ c, e = RouteError.unknownChannel c := by
  induction ex generalizing e with
  | sym n =>
      have hmem : n ∈ keysOf vocab := hs n (by simp [exprSyms])
      rw [← lookupCh_isSome_iff] at hmem
      obtain ⟨v, hv⟩ := Option.isSome_iff_exists.mp hmem
      rw [evalE, hv] at h
      cases h
  | chan n =>
      cases hl : lookupCh chans n with
      | none =>
          rw [evalE, hl] at h
          cases h
          exact ⟨n, rfl⟩
      | some w => rw [evalE, hl] at h; cases h
  | add a b iha ihb =>
      cases ha : evalE vocab chans a with
      | error ea =>
          rw [evalE, ha] at h
          cases h
          exact iha (fun s hm => hs s (by simp [exprSyms, hm])) ha
      | ok va =>
          cases hb : evalE vocab chans b with
          | error eb =>
              rw [evalE, ha, hb] at h
              cases h
              exact ihb (fun s hm => hs s (by simp [exprSyms, hm])) hb
          | ok vb => rw [evalE, ha, hb] at h; cases h
  | sub a b iha ihb =>
      cases ha : evalE vocab chans a with
      | error ea =>
          rw [evalE, ha] at h
          cases h
          exact iha (fun s hm => hs s (by simp [exprSyms, hm])) ha
      | ok va =>
          cases hb : evalE vocab chans b with
          | error eb =>
              rw [evalE, ha, hb] at h
              cases h
              exact ihb (fun s hm => hs s (by simp [exprSyms, hm])) hb
          | ok vb => rw [evalE, ha, hb] at h; cases h
  | bind a b iha ihb =>
      cases ha : evalE vocab chans a with
      | error ea =>
          rw [evalE, ha] at h
          cases h
          exact iha (fun s hm => hs s (by simp [exprSyms, hm])) ha
      | ok va =>
          cases hb : evalE vocab chans b with
          | error eb =>
              rw [evalE, ha, hb] at h
              cases h
              exact ihb (fun s hm => hs s (by simp [exprSyms, hm])) hb
          | ok vb => rw [evalE, ha, hb] at h; cases h
  | inv a iha =>
      cases ha : evalE vocab chans a with
      | error ea =>
          rw [evalE, ha] at h
          cases h
          exact iha (fun s hm => hs s (by simp [exprSyms, hm])) ha
      | ok va => rw [evalE, ha] at h; cases h

/-- The weighted contributions of one rule's effect list into channel
`n`. -/
def effContribs (vocab snap : Store) (w : ℚ) (effs : List (String × Expr))
    (n : String) : List Vec :=
  effs.filterMap (fun eff =>
    if eff.1 = n then
      some (vsmul w ((evalE vocab snap eff.2).toOption.getD []))
    else none)

theorem effContribs_cons_pos {vocab snap : Store} {w : ℚ} {n : String}
    {eff : String × Expr} {effs : List (String × Expr)} {v : Vec}
    (h : eff.1 = n) (hv : evalE vocab snap eff.2 = Except.ok v) :
    effContribs vocab snap w (eff :: effs) n =
      vsmul w v :: effContribs vocab snap w effs n := by
  simp [effContribs, h, hv, Except.toOption]

theorem effContribs_cons_neg {vocab snap : Store} {w : ℚ} {n : String}
    {eff : String × Expr} {effs : List (String × Expr)}
    (h : eff.1 ≠ n) :
    effContribs vocab snap w (eff :: effs) n = effContribs vocab snap w effs n := by
  simp [effContribs, h]

theorem applyEffect_eq_ok {vocab snap store : Store} {w : ℚ}
    {eff : String × Expr} {v : Vec} {s1 : Store}
    (hv : evalE vocab snap eff.2 = Except.ok v)
    (ha : addAt store eff.1 (vsmul w v) = some s1) :
    applyEffect vocab snap w store eff = Except.ok s1 := by
  unfold applyEffect
  rw [hv]
  show (match addAt store eff.1 (vsmul w v) with
        | some s => Except.ok s
        | none => Except.error (RouteError.unknownChannel eff.1)) = Except.ok s1
  rw [ha]

theorem applyEffect_ok_inv {vocab snap store : Store} {w : ℚ}
    {eff : String × Expr} {s1 : Store}
    (h : applyEffect vocab snap w store eff = Except.ok s1) :
    ∃ v, evalE vocab snap eff.2 = Except.ok v ∧
      addAt store eff.1 (vsmul w v) = some s1 := by
  unfold applyEffect at h
  cases hv : evalE vocab snap eff.2 with
  | error e1 =>
      simp only [hv] at h
      exact Except.noConfusion h
  | ok v =>
      simp only [hv] at h
      cases ha : addAt store eff.1 (vsmul w v) with
      | none =>
          simp only [ha] at h
          exact Except.noConfusion h
      | some s0 =>
          simp only [ha] at h
          cases h
          exact ⟨v, rfl, ha⟩

theorem applyEffect_err_inv {vocab snap store : Store} {w : ℚ}
    {eff : String × Expr} {e : RouteError}
    (h : applyEffect vocab snap w store eff = Except.error e) :
    evalE vocab snap eff.2 = Except.error e ∨
      (∃ v, evalE vocab snap eff.2 = Except.ok v ∧
        e = RouteError.unknownChannel eff.1) := by
  unfold applyEffect at h
  cases hv : evalE vocab snap eff.2 with
  | error e1 =>
      simp only [hv] at h
      cases h
      exact Or.inl rfl
  | ok v =>
      simp only [hv] at h
      cases ha : addAt store eff.1 (vsmul w v) with
      | none =>
          simp only [ha] at h
          cases h
          exact Or.inr ⟨v, rfl, rfl⟩
      | some s0 =>
          simp only [ha] at h
          exact Except.noConfusion h

/-- Success of one rule's effect fold, with the additive lookup
characterization: each effect adds its weighted contribution into its
destination register and nothing else changes. -/
theorem applyEffects_ok (vocab snap : Store) (w : ℚ) :
    ∀ (effs : List (String × Expr)) (store : Store),
    (∀ eff ∈ effs, eff.1 ∈ keysOf store ∧
      ∃ v, evalE vocab snap eff.2 = Except.ok v) →
    ∃ s2, effs.foldlM (applyEffect vocab snap w) store = Except.ok s2 ∧
      keysOf s2 = keysOf store ∧
      ∀ n, lookupCh s2 n = (lookupCh store n).map
        (fun v0 => (effContribs vocab snap w effs n).foldl vadd v0) := by
  intro effs
  induction effs with
  | nil =>
      intro store _
      refine ⟨store, rfl, rfl, fun n => ?_⟩
      simp [effContribs]
  | cons eff effs ih =>
      intro store hh
      obtain ⟨hkey, v, hv⟩ := hh eff (List.mem_cons_self eff effs)
      have hsome : (addAt store eff.1 (vsmul w v)).isSome :=
        (addAt_isSome_iff store eff.1 (vsmul w v)).mpr hkey
      obtain ⟨s1, haddAt⟩ := Option.isSome_iff_exists.mp hsome
      have hkeys1 : keysOf s1 = keysOf store := addAt_keys haddAt
      obtain ⟨s2, hfold, hkeys2, hlook2⟩ := ih s1 (by
        intro e he
        obtain ⟨hk, hv2⟩ := hh e (List.mem_cons_of_mem _ he)
        exact ⟨hkeys1 ▸ hk, hv2⟩)
      refine ⟨s2, ?_, hkeys2.trans hkeys1, ?_⟩
      · rw [List.foldlM_cons, applyEffect_eq_ok hv haddAt]
        exact hfold
      · intro n
        rw [hlook2 n]
        by_cases hn : eff.1 = n
        · subst hn
          rw [addAt_lookup_self haddAt, effContribs_cons_pos rfl hv]
          cases lookupCh store eff.1 with
          | none => rfl
          | some v0 => simp [List.foldl_cons]
        · rw [addAt_lookup_other haddAt (fun he => hn he.symm),
            effContribs_cons_neg hn]

/-- A successful effect fold implies every destination was declared and
every effect expression evaluated. -/
theorem applyEffects_ok_inv (vocab snap : Store) (w : ℚ) :
    ∀ (effs : List (String × Expr)) (store s2 : Store),
    effs.foldlM (applyEffect vocab snap w) store = Except.ok s2 →
    ∀ eff ∈ effs, eff.1 ∈ keysOf store ∧
      ∃ v, evalE vocab snap eff.2 = Except.ok v := by
  intro effs
  induction effs with
  | nil => intro store s2 _ eff he; cases he
  | cons eff effs ih =>
      intro store s2 hfold e he
      rw [List.foldlM_cons] at hfold
      cases happ : applyEffect vocab snap w store eff with
      | error e0 =>
          rw [happ] at hfold
          exact Except.noConfusion hfold
      | ok s1 =>
          rw [happ] at hfold
          have hfold1 : effs.foldlM (applyEffect vocab snap w) s1 = Except.ok s2 :=
            hfold
          obtain ⟨v, hv, ha⟩ := applyEffect_ok_inv happ
          have hkeys1 : keysOf s1 = keysOf store := addAt_keys ha
          rcases List.mem_cons.mp he with rfl | hmem
          · refine ⟨?_, v, hv⟩
            exact (addAt_isSome_iff store e.1 (vsmul w v)).mp (by rw [ha]; rfl)
          · obtain ⟨hk, hv2⟩ := ih s1 s2 hfold1 e hmem
            exact ⟨hkeys1 ▸ hk, hv2⟩

/-- When every referenced symbol is declared, an effect-fold failure is an
unknown-channel error. -/
theorem applyEffects_err_classify (vocab snap : Store) (w : ℚ) :
    ∀ (effs : List (String × Expr)) (store : Store) (e : RouteError),
    (∀ eff ∈ effs, ∀ s ∈ exprSyms eff.2, s ∈ keysOf vocab) →
    effs.foldlM (applyEffect vocab snap w) store = Except.error e →
    ∃ c, e = RouteError.unknownChannel c := by
  intro effs
  induction effs with
  | nil => intro store e _ h; exact Except.noConfusion h
  | cons eff effs ih =>
      intro store e hsyms hfold
      rw [List.foldlM_cons] at hfold
      cases happ : applyEffect vocab snap w store eff with
      | error e0 =>
          rw [happ] at hfold
          cases hfold
          rcases applyEffect_err_inv happ with herr | ⟨v, _, heq⟩
          · exact evalE_error_unknownChannel
              (hsyms eff (List.mem_cons_self eff effs)) herr
          · exact ⟨eff.1, heq⟩
      | ok s1 =>
          rw [happ] at hfold
          exact ih s1 e (fun f hf => hsyms f (List.mem_cons_of_mem _ hf)) hfold

theorem contribsAt_cons_pos {vocab snap : Store} {p : ℚ × Rule}
    {ws : List (ℚ × Rule)} {n : String} (h : 0 < p.1) :
    contribsAt vocab snap (p :: ws) n =
      effContribs vocab snap p.1 p.2.effects n ++ contribsAt vocab snap ws n := by
  unfold contribsAt effContribs
  rw [List.filter_cons, if_pos (by simpa using h), List.flatMap_cons]

theorem contribsAt_cons_neg {vocab snap : Store} {p : ℚ × Rule}
    {ws : List (ℚ × Rule)} {n : String} (h : ¬0 < p.1) :
    contribsAt vocab snap (p :: ws) n = contribsAt vocab snap ws n := by
  unfold contribsAt
  rw [List.filter_cons, if_neg (by simpa using h)]

/-- Success of the Router fold from any accumulator sharing the snapshot's
keys, with the additive per-channel characterization. -/
theorem route_fold_ok (vocab snap : Store) :
    ∀ (ws : List (ℚ × Rule)) (acc : Store),
    keysOf acc = keysOf snap →
    (∀ p ∈ ws, 0 < p.1 →
      ∀ eff ∈ p.2.effects, eff.1 ∈ keysOf snap ∧
        ∃ v, evalE vocab snap eff.2 = Except.ok v) →
    ∃ s2, ws.foldlM (fun s q => applyRule vocab snap s q.1 q.2) acc = Except.ok s2 ∧
      keysOf s2 = keysOf snap ∧
      ∀ n, lookupCh s2 n = (lookupCh acc n).map
        (fun v0 => (contribsAt vocab snap ws n).foldl vadd v0) := by
  intro ws
  induction ws with
  | nil =>
      intro acc hk _
      exact ⟨acc, rfl, hk, fun n => by simp [contribsAt]⟩
  | cons p ws ih =>
      intro acc hkacc hh
      by_cases hw : 0 < p.1
      · have heffs : ∀ eff ∈ p.2.effects, eff.1 ∈ keysOf acc ∧
            ∃ v, evalE vocab snap eff.2 = Except.ok v := by
          intro eff he
          obtain ⟨hk, hex⟩ := hh p (List.mem_cons_self p ws) hw eff he
          exact ⟨hkacc ▸ hk, hex⟩
        obtain ⟨s1, hfold1, hkeys1, hlook1⟩ :=
          applyEffects_ok vocab snap p.1 p.2.effects acc heffs
        obtain ⟨s2, hfold2, hkeys2, hlook2⟩ :=
          ih s1 (hkeys1.trans hkacc) (fun q hq => hh q (List.mem_cons_of_mem _ hq))
        refine ⟨s2, ?_, hkeys2, ?_⟩
        · rw [List.foldlM_cons]
          have happly : applyRule vocab snap acc p.1 p.2 = Except.ok s1 := by
            unfold applyRule
            rw [if_pos hw]
            exact hfold1
          rw [happly]
          exact hfold2
        · intro n
          rw [hlook2 n, hlook1 n, contribsAt_cons_pos hw]
          cases lookupCh acc n with
          | none => rfl
          | some v0 => simp [List.foldl_append]
      · obtain ⟨s2, hfold2, hkeys2, hlook2⟩ :=
          ih acc hkacc (fun q hq => hh q (List.mem_cons_of_mem _ hq))
        refine ⟨s2, ?_, hkeys2, ?_⟩
        · rw [List.foldlM_cons]
          have happly : applyRule vocab snap acc p.1 p.2 = Except.ok acc := by
            unfold applyRule
            rw [if_neg hw]
          rw [happly]
          exact hfold2
        · intro n
          rw [hlook2 n, contribsAt_cons_neg hw]

/-- If an active rule's effects reference an undeclared channel while all
referenced symbols are declared, the Router fold fails with an
unknown-channel error. -/
theorem route_fold_err (vocab snap : Store) :
    ∀ (ws : List (ℚ × Rule)) (acc : Store),
    keysOf acc = keysOf snap →
    (∀ p ∈ ws, 0 < p.1 → ∀ s ∈ p.2.effectSymRefs, s ∈ keysOf vocab) →
    (∃ p ∈ ws, 0 < p.1 ∧ ∃ c ∈ p.2.effectChanRefs, c ∉ keysOf snap) →
    ∃ c, ws.foldlM (fun s q => applyRule vocab snap s q.1 q.2) acc =
      Except.error (RouteError.unknownChannel c) := by
  intro ws
  induction ws with
  | nil =>
      rintro acc _ _ ⟨p, hp, _⟩
      cases hp
  | cons p ws ih =>
      rintro acc hkacc hsyms hbad
      by_cases hw : 0 < p.1
      · cases hfold1 : p.2.effects.foldlM (applyEffect vocab snap p.1) acc with
        | error e =>
            have hsymsp : ∀ eff ∈ p.2.effects, ∀ s ∈ exprSyms eff.2,
                s ∈ keysOf vocab := by
              intro eff he sname hs
              refine hsyms p (List.mem_cons_self p ws) hw sname ?_
              unfold Rule.effectSymRefs
              exact List.mem_flatMap.mpr ⟨eff, he, hs⟩
            obtain ⟨c, hc⟩ :=
              applyEffects_err_classify vocab snap p.1 p.2.effects acc e hsymsp hfold1
            subst hc
            refine ⟨c, ?_⟩
            rw [List.foldlM_cons]
            have happly : applyRule vocab snap acc p.1 p.2 =
                Except.error (RouteError.unknownChannel c) := by
              unfold applyRule
              rw [if_pos hw]
              exact hfold1
            rw [happly]
            rfl
        | ok s1 =>
            rcases hbad with ⟨q, hq, hqw, c, hc, hcnot⟩
            rcases List.mem_cons.mp hq with rfl | hqmem
            · exfalso
              have hinv := applyEffects_ok_inv vocab snap q.1 q.2.effects acc s1 hfold1
              unfold Rule.effectChanRefs at hc
              rcases List.mem_append.mp hc with hdest | hexpr
              · obtain ⟨eff, heff, heq⟩ := List.mem_map.mp hdest
                obtain ⟨hk, _⟩ := hinv eff heff
                exact hcnot (hkacc ▸ (heq ▸ hk))
              · obtain ⟨eff, heff, hce⟩ := List.mem_flatMap.mp hexpr
                obtain ⟨_, v, hv⟩ := hinv eff heff
                exact hcnot (evalE_chanRefs_of_ok hv c hce)
            · have hkeys1 : keysOf s1 = keysOf snap := by
                obtain ⟨s2x, hfx, hkx, _⟩ :=
                  applyEffects_ok vocab snap p.1 p.2.effects acc
                    (applyEffects_ok_inv vocab snap p.1 p.2.effects acc s1 hfold1)
                rw [hfold1] at hfx
                cases hfx
                exact hkx.trans hkacc
              obtain ⟨c2, hc2⟩ := ih s1 hkeys1
                (fun q2 hq2 => hsyms q2 (List.mem_cons_of_mem _ hq2))
                ⟨q, hqmem, hqw, c, hc, hcnot⟩
              refine ⟨c2, ?_⟩
              rw [List.foldlM_cons]
              have happly : applyRule vocab snap acc p.1 p.2 = Except.ok s1 := by
                unfold applyRule
                rw [if_pos hw]
                exact hfold1
              rw [happly]
              exact hc2
      · rcases hbad with ⟨q, hq, hqw, hcex⟩
        rcases List.mem_cons.mp hq with rfl | hqmem
        · exact absurd hqw hw
        · obtain ⟨c2, hc2⟩ := ih acc hkacc
            (fun q2 hq2 => hsyms q2 (List.mem_cons_of_mem _ hq2))
            ⟨q, hqmem, hqw, hcex⟩
          refine ⟨c2, ?_⟩
          rw [List.foldlM_cons]
          have happly : applyRule vocab snap acc p.1 p.2 = Except.ok acc := by
            unfold applyRule
            rw [if_neg hw]
          rw [happly]
          exact hc2

/-- C7: on a tick the Router adds, for every rule with positive selection
weight, `selection * parse(effect_expr, snapshot)` into each destination
register; contributions of multiple rules to the same channel accumulate
additively and no renormalization is applied (each channel's new value is
exactly its old value plus the accumulated weighted contributions); the
Router changes only channel registers (the declared names are preserved);
and when an active rule's effect expressions reference an undeclared
channel (all symbols being declared), routing fails with an
unknown-channel error. -/
theorem router_additive_contract :
    ∀ (vocab store : Store) (ws : List (ℚ × Rule)),
    ((∀ p ∈ ws, 0 < p.1 →
        (∀ c ∈ p.2.effectChanRefs, c ∈ keysOf store) ∧
        (∀ s ∈ p.2.effectSymRefs, s ∈ keysOf vocab)) →
      ∃ s2, route vocab store ws = Except.ok s2 ∧
        keysOf s2 = keysOf store ∧
        ∀ n, lookupCh s2 n = (lookupCh store n).map
          (fun v0 => (contribsAt vocab store ws n).foldl vadd v0)) ∧
    ((∀ p ∈ ws, 0 < p.1 → ∀ s ∈ p.2.effectSymRefs, s ∈ keysOf vocab) →
      (∃ p ∈ ws, 0 < p.1 ∧ ∃ c ∈ p.2.effectChanRefs, c ∉ keysOf store) →
      ∃ c, route vocab store ws = Except.error (RouteError.unknownChannel c)) := by
  intro vocab store ws
  constructor
  · intro h
    unfold route
    apply route_fold_ok vocab store ws store rfl
    intro p hp hw eff he
    obtain ⟨hch, hsy⟩ := h p hp hw
    constructor
    · apply hch
      unfold Rule.effectChanRefs
      exact List.mem_append.mpr (Or.inl (List.mem_map.mpr ⟨eff, he, rfl⟩))
    · apply evalE_ok_of_refs
      · intro c hce
        apply hch
        unfold Rule.effectChanRefs
        exact List.mem_append.mpr (Or.inr (List.mem_flatMap.mpr ⟨eff, he, hce⟩))
      · intro sname hse
        apply hsy
        unfold Rule.effectSymRefs
        exact List.mem_flatMap.mpr ⟨eff, he, hse⟩
  · intro hsy hbad
    unfold route
    exact route_fold_err vocab store ws store rfl hsy hbad

/-! ### Configuration and the engine tick

Modelled from the spec: `configure` (spec §6) validates fail-fast at
configuration time; the tick (spec §2) runs evaluator → selector → router
in strict sequence. -/

/-- Configuration-time error taxonomy (spec §7). -/
inductive ConfigError where
  | nonpositiveDimension (d : ℤ)
  | duplicateChannel
  | undeclaredReference
  deriving DecidableEq, Repr

/-- All channel names referenced by a rule: condition channels, channels
inside condition expressions, effect destinations, and channels inside
effect expressions. -/
def Rule.chanRefs (r : Rule) : List String :=
  r.conditions.map Prod.fst ++ r.conditions.flatMap (fun c => exprChans c.2) ++
    r.effectChanRefs

/-- All symbol names referenced by a rule. -/
def Rule.symRefs (r : Rule) : List String :=
  r.conditions.flatMap (fun c => exprSyms c.2) ++ r.effectSymRefs

/-- Modelled from the spec: the arguments of `configure` (spec §6).  The
spec's `channel_names : set of string` is taken as an ordered list so that
the duplicate-name check is meaningful, and the vocabulary's declared
symbol names are listed explicitly (the spec checks rules against declared
symbols but leaves the vocabulary's provenance implicit). -/
structure Config where
  dimensions : ℤ
  channelNames : List String
  symbolNames : List String
  rules : List Rule
  timeConstant : ℚ
  inhibitionGain : ℚ
  deriving DecidableEq, Repr

/-- Every rule references only declared channels and symbols. -/
def rulesDeclared (c : Config) : Prop :=
  ∀ r ∈ c.rules, (∀ ch ∈ r.chanRefs, ch ∈ c.channelNames) ∧
    (∀ s ∈ r.symRefs, s ∈ c.symbolNames)

instance (c : Config) : Decidable (rulesDeclared c) := by
  unfold rulesDeclared
  infer_instance

/-- Modelled from the spec: a deterministic hash of a symbol name, the
seed of its pseudo-random vector (spec §3: vectors are generated once,
pseudo-randomly; randomness is confined to Vocabulary construction, so the
generator is a pure function of the name). -/
def strSeed (s : String) : ℕ :=
  s.data.foldl (fun h ch => (h * 31 + ch.toNat) % 2147483648) 7

/-- Linear congruential step of the vector generator. -/
def lcgNext (x : ℕ) : ℕ := (x * 1103515245 + 12345) % 2147483648

/-- Generate `d` pseudo-random coordinates from a seed.  (The spec's
unit-norm normalization is not exactly representable over `ℚ`; no claim
settled here depends on the magnitude.) -/
def genVecAux : ℕ → ℕ → Vec
  | 0, _ => []
  | d + 1, x =>
      let x2 := lcgNext x
      ((((x2 % 2001 : ℕ) : ℤ) - 1000 : ℤ) : ℚ) :: genVecAux d x2

/-- A symbol's pseudo-random vector, a pure function of its name. -/
def genVec (dims : ℕ) (name : String) : Vec := genVecAux dims (strSeed name)

/-- Engine state: configuration data plus the two per-tick mutable pieces
(Channel Store, Selection State). -/
structure Engine where
  dimensions : ℕ
  channelNames : List String
  rules : List Rule
  timeConstant : ℚ
  inhibitionGain : ℚ
  vocab : Store
  channels : Store
  activities : List ℚ
  deriving DecidableEq, Repr

instance : Inhabited Engine :=
  ⟨{ dimensions := 0, channelNames := [], rules := [], timeConstant := 1,
     inhibitionGain := 1, vocab := [], channels := [], activities := [] }⟩

/-- `configure` (spec §6): fail-fast validation — non-positive dimension,
duplicate channel names, rule referencing an undeclared channel/symbol —
then build the engine: pseudo-random vocabulary, zeroed channels, zeroed
selection state. -/
def configure (c : Config) : Except ConfigError Engine :=
  if c.dimensions ≤ 0 then
    Except.error (ConfigError.nonpositiveDimension c.dimensions)
  else if ¬c.channelNames.Nodup then
    Except.error ConfigError.duplicateChannel
  else if ¬rulesDeclared c then
    Except.error ConfigError.undeclaredReference
  else
    Except.ok
      { dimensions := c.dimensions.toNat
        channelNames := c.channelNames
        rules := c.rules
        timeConstant := c.timeConstant
        inhibitionGain := c.inhibitionGain
        vocab := c.symbolNames.map (fun n => (n, genVec c.dimensions.toNat n))
        channels := c.channelNames.map
          (fun n => (n, List.replicate c.dimensions.toNat 0))
        activities := c.rules.map (fun _ => 0) }

/-- Action Evaluator (spec §4.2): one utility scalar per rule, the sum of
the `dot(channel, expr)` condition terms against the current channel
values; no side effects. -/
def ruleUtility (vocab chans : Store) (r : Rule) : ℚ :=
  (r.conditions.map (fun c =>
    vdot ((lookupCh chans c.1).getD [])
      ((evalE vocab chans c.2).toOption.getD []))).sum

/-- One tick (spec §2): evaluator computes utilities → selector updates
the activities → router writes weighted effects into the Channel Store;
returns the diagnostic `(utilities, selection)` pair (spec §6). -/
def tick (dt : ℚ) (e : Engine) : Engine × (List ℚ × List ℚ) :=
  let utils := e.rules.map (ruleUtility e.vocab e.channels)
  let u : Fin e.rules.length → ℚ := fun i => utils.getD i 0
  let a : Fin e.rules.length → ℚ := fun i => e.activities.getD i 0
  let a2 : Fin e.rules.length → ℚ := stepActivity e.inhibitionGain dt e.timeConstant u a
  let sel := List.ofFn (selectionOf selEps selSlope a2)
  let chans2 := (route e.vocab e.channels (sel.zip e.rules)).toOption.getD e.channels
  ({ e with channels := chans2, activities := List.ofFn a2 }, (utils, sel))

/-- Overwrite the register of `name` (first occurrence). -/
def setAt : Store → String → Vec → Store
  | [], _, _ => []
  | (k, w) :: rest, n, v =>
      if k = n then (k, v) :: rest else (k, w) :: setAt rest n v

/-- `set_channel_input` (spec §6): caller-supplied stimulus; the vector
length must equal the configured dimensionality. -/
def setChannelInput (e : Engine) (name : String) (v : Vec) :
    Except DimensionMismatchError Engine :=
  if v.length = e.dimensions then
    Except.ok { e with channels := setAt e.channels name v }
  else
    Except.error ⟨v.length, e.dimensions⟩

/-- Drive the engine over a sequence of steps, each step supplying
external channel inputs and a `dt`, collecting each tick's diagnostics. -/
def runEngine (e : Engine) :
    List (List (String × Vec) × ℚ) →
      Except DimensionMismatchError (List (List ℚ × List ℚ))
  | [] => Except.ok []
  | step :: rest => do
      let e1 ← step.1.foldlM (fun acc p => setChannelInput acc p.1 p.2) e
      let r := tick step.2 e1
      let outs ← runEngine r.1 rest
      pure (r.2 :: outs)

/-- C6: `configure` fails with a `ConfigError` exactly when the dimension
is non-positive, a channel name is duplicated, or a rule references an
undeclared channel or symbol; otherwise it returns an engine — all
detected once, at configuration time. -/
theorem configure_validates :
    ∀ c : Config,
    ((∃ err, configure c = Except.error err) ↔
      (c.dimensions ≤ 0 ∨ ¬c.channelNames.Nodup ∨ ¬rulesDeclared c)) ∧
    ((∃ e, configure c = Except.ok e) ↔
      ¬(c.dimensions ≤ 0 ∨ ¬c.channelNames.Nodup ∨ ¬rulesDeclared c)) := by
  intro c
  unfold configure
  split_ifs with h1 h2 h3 <;>
    constructor <;>
    simp [h1] <;>
    tauto

/-- C5: the engine is deterministic as a two-run property — two engines
returned by `configure` on identical arguments produce identical run
outputs (utilities and selection, tick by tick) on identical input
sequences, and identical single-tick outputs for every `dt`; the whole
pipeline is a pure function of the configuration and the inputs, with
the pseudo-randomness confined to Vocabulary construction (a pure
function of the symbol names). -/
theorem engine_two_run_deterministic (c : Config) (e1 e2 : Engine)
    (h1 : configure c = Except.ok e1) (h2 : configure c = Except.ok e2)
    (ins : List (List (String × Vec) × ℚ)) :
    runEngine e1 ins = runEngine e2 ins ∧ ∀ dt, (tick dt e1).2 = (tick dt e2).2 := by
  rw [h1] at h2
  cases h2
  exact ⟨rfl, fun _ => rfl⟩

/-- Concrete configuration for the determinism witness. -/
def demoConfig : Config :=
  { dimensions := 2
    channelNames := ["vision", "memory"]
    symbolNames := ["STATEMENT"]
    rules := [ { conditions := [("vision", Expr.sym "STATEMENT")],
                 effects := [("memory", Expr.chan "vision")] } ]
    timeConstant := 2
    inhibitionGain := 1 }

/-- The engine obtained from `demoConfig`. -/
def demoEngine : Engine := (configure demoConfig).toOption.getD default

/-- Witness for C5 at a concrete configuration and input sequence. -/
theorem engine_two_run_deterministic_witness :
    runEngine demoEngine [([("vision", [1, 0])], 1)] =
        runEngine demoEngine [([("vision", [1, 0])], 1)] ∧
      (tick 1 demoEngine).2 = (tick 1 demoEngine).2 :=
  ⟨(engine_two_run_deterministic demoConfig demoEngine demoEngine (by rfl) (by rfl)
      [([("vision", [1, 0])], 1)]).1,
   (engine_two_run_deterministic demoConfig demoEngine demoEngine (by rfl) (by rfl)
      [([("vision", [1, 0])], 1)]).2 1⟩

/-- C9: the four strictly-open intervals of `Input` are pairwise disjoint
(so for every `t` at most one branch condition holds and exactly one branch
applies), every boundary instant returns the zero stimulus `"0"`, and every
`t` outside the four open intervals returns `"0"`. -/
theorem input_intervals_disjoint_and_zero_outside :
    (∀ t : ℚ,
      ¬((0.1 < t ∧ t < 0.3) ∧ (0.35 < t ∧ t < 0.5)) ∧
      ¬((0.1 < t ∧ t < 0.3) ∧ (0.55 < t ∧ t < 0.7)) ∧
      ¬((0.1 < t ∧ t < 0.3) ∧ (0.75 < t ∧ t < 0.9)) ∧
      ¬((0.35 < t ∧ t < 0.5) ∧ (0.55 < t ∧ t < 0.7)) ∧
      ¬((0.35 < t ∧ t < 0.5) ∧ (0.75 < t ∧ t < 0.9)) ∧
      ¬((0.55 < t ∧ t < 0.7) ∧ (0.75 < t ∧ t < 0.9))) ∧
    (Input 0.1 = "0" ∧ Input 0.3 = "0" ∧ Input 0.35 = "0" ∧ Input 0.5 = "0" ∧
     Input 0.55 = "0" ∧ Input 0.7 = "0" ∧ Input 0.75 = "0" ∧ Input 0.9 = "0") ∧
    (∀ t : ℚ, ¬(0.1 < t ∧ t < 0.3) → ¬(0.35 < t ∧ t < 0.5) →
      ¬(0.55 < t ∧ t < 0.7) → ¬(0.75 < t ∧ t < 0.9) → Input t = "0") := by
  refine ⟨?_, ?_, ?_⟩
  · intro t
    refine ⟨?_, ?_, ?_, ?_, ?_, ?_⟩ <;> rintro ⟨⟨_, h1⟩, ⟨h2, _⟩⟩ <;> linarith
  · refine ⟨?_, ?_, ?_, ?_, ?_, ?_, ?_, ?_⟩ <;> norm_num [Input]
  · intro t h1 h2 h3 h4
    simp only [Input, if_neg h1, if_neg h2, if_neg h3, if_neg h4]

/-- C10: the two notebook rules have disjoint destination channels — the
STATEMENT rule writes only `memory`, the QUESTION rule writes only `motor`
— so no channel is the destination of more than one rule on a tick. -/
theorem question_control_dests_disjoint :
    (questionControlActions.map Rule.dests) = [["memory"], ["motor"]] ∧
    (∀ c ∈ (["memory"] : List String), c ∉ (["motor"] : List String)) := by
  constructor
  · rfl
  · decide

end Spa
